import Mathlib

/-!
Verification development for the chess-engine analysis subsystem of the
holocoach repository: the move-quality classifier (MoveClassifier.ts), the
Stockfish engine services (StockfishService.ts, NativeStockfishService.ts)
and the game-analysis orchestrator (IPC handler handleStockfishAnalyzeGame).

Stateful and asynchronous code is embedded as explicit state-passing step
functions; JavaScript numbers that only ever hold integers are modelled as
Lean integers; fallible operations return Option.
-/

namespace HoloCoach

/-! ### Move quality (shared/types/chess.ts)

The string union 'best' | 'okay' | 'inaccuracy' | 'blunder'. -/

inductive MoveQuality where
  | best
  | okay
  | inaccuracy
  | blunder
deriving DecidableEq, Repr

namespace MoveClassifier

/-! ### MoveClassifier (src/chess/analysis/MoveClassifier.ts)

Constants CLASSIFICATION_THRESHOLDS from the source. -/

def BEST_LOSS_THRESHOLD : Int := 50

def OKAY_LOSS_THRESHOLD : Int := 120

def INACCURACY_LOSS_THRESHOLD : Int := 250

def MATE_CAP : Int := 1000

def TINY_SIGN_FLIP_THRESHOLD : Int := 250

/-- `Math.max(-MATE_CAP, Math.min(MATE_CAP, x))` -/
def clampCap (x : Int) : Int := max (-MATE_CAP) (min MATE_CAP x)

/-- `MoveClassifier.classifyMove(evaluationBefore, evaluationAfter, evaluationBest)`:
caps the after/best evaluations, computes delta and loss, treats small sign
flips leniently, then classifies by loss thresholds.  The occasional
`console.log` in the source has no effect on the returned value. -/
def classifyMove (evaluationBefore evaluationAfter evaluationBest : Int) : MoveQuality :=
  let eBefore := evaluationBefore
  let eAfter := clampCap evaluationAfter
  let eBest := clampCap evaluationBest
  let delta := eAfter - eBefore
  let loss := |eBest - eAfter|
  let signBefore := Int.sign eBefore
  let signAfter := Int.sign eAfter
  if signBefore ≠ signAfter ∧ |delta| < TINY_SIGN_FLIP_THRESHOLD then
    .inaccuracy
  else if loss ≤ BEST_LOSS_THRESHOLD then
    .best
  else if loss ≤ OKAY_LOSS_THRESHOLD then
    .okay
  else if loss ≤ INACCURACY_LOSS_THRESHOLD then
    .inaccuracy
  else
    .blunder

/-- `MoveClassifier.mateScore(mateIn)` = `10000 - 100 * Math.abs(mateIn)`. -/
def mateScore (mateIn : Int) : Int := 10000 - 100 * |mateIn|

end MoveClassifier

namespace StockfishService

/-! ### StockfishService (src/src/chess/engine/StockfishService.ts)

The in-progress accumulator `currentAnalysis : Partial<StockfishAnalysis>`:
every field may still be `undefined`. -/

structure Accum where
  evaluation : Option Int
  bestMove : Option String
  depth : Option Nat
  mate : Option Int
deriving DecidableEq, Repr

/-- The accumulator at the start of an analysis: `this.currentAnalysis = {}`. -/
def Accum.empty : Accum := ⟨none, none, none, none⟩

/-- The completed `StockfishAnalysis` record (evaluation in centipawns,
best move in coordinate notation, search depth, optional mate distance).
The optional `bestMoveSan` display field is not modelled. -/
structure SFAnalysis where
  evaluation : Int
  bestMove : String
  depth : Nat
  mate : Option Int
deriving DecidableEq, Repr

/-- JavaScript truthiness of an optional string: `undefined` and `''` are
falsy, every other string is truthy. -/
def truthyStr : Option String → Bool
  | none => false
  | some s => !s.isEmpty

/-- `convertAnalysis` (without the SAN conversion, which only adds the
display-only `bestMoveSan` field): `evaluation: ... || 0`,
`bestMove: ... || ''`, `depth: ... || 1`, `mate` passed through. -/
def convertAnalysis (acc : Accum) : SFAnalysis :=
  { evaluation := acc.evaluation.getD 0
  , bestMove := acc.bestMove.getD ""
  , depth := match acc.depth with
      | none => 1
      | some 0 => 1
      | some d => d
  , mate := acc.mate }

/-- `parseInfo` mate branch (lines 206-211): for a `score mate N` token the
accumulator's evaluation is set to
`mateIn > 0 ? 10000 - mateIn : -10000 - Math.abs(mateIn)`. -/
def parseInfoMateEval (mateIn : Int) : Int :=
  if mateIn > 0 then 10000 - mateIn else -10000 - |mateIn|

/-- The `bestmove` branch of `handleMessage` (lines 149-177), given the
space-split parts of the line.  `parts[1]`, when truthy and not `'(none)'`,
overwrites the accumulator's best move; then, since a resolver is pending,
a missing evaluation defaults to 0 and a missing (or 0) depth defaults to 1,
and the resolver is called with `convertAnalysis` — the analysis always
resolves, never errors. -/
def finalizeBestmove (parts : List String) (acc : Accum) : SFAnalysis :=
  let acc1 := match parts.get? 1 with
    | some bm => if ¬bm.isEmpty ∧ bm ≠ "(none)" then { acc with bestMove := some bm } else acc
    | none => acc
  let acc2 := if acc1.evaluation = none then { acc1 with evaluation := some 0 } else acc1
  let acc3 := if acc2.depth = none ∨ acc2.depth = some 0 then { acc2 with depth := some 1 } else acc2
  convertAnalysis acc3

/-- JavaScript `line.split(' ')`: split on every single space, keeping empty
segments between consecutive separators. -/
def splitSpaceAux : List Char → List Char → List String
  | [], acc => [String.mk acc.reverse]
  | c :: cs, acc =>
      if c = ' ' then String.mk acc.reverse :: splitSpaceAux cs []
      else splitSpaceAux cs (c :: acc)

def jsSplitSpace (s : String) : List String := splitSpaceAux s.data []

/-- A whole `bestmove ...` line fed to `handleMessage`. -/
def handleBestmoveLine (line : String) (acc : Accum) : SFAnalysis :=
  finalizeBestmove (jsSplitSpace line) acc

/-- The evaluation-normalization step of the resolver installed by
`performAnalysis` (lines 289-301): with black to move the raw
side-to-move-relative centipawn evaluation is negated (the mate branch then
further rewrites the evaluation when a mate distance is present). -/
def resolverNormalize (isBlackTurn : Bool) (a : SFAnalysis) : SFAnalysis :=
  let a1 := if isBlackTurn then { a with evaluation := -a.evaluation } else a
  match isBlackTurn, a1.mate with
  | true, some mateIn =>
      { a1 with evaluation := if a1.evaluation > 0 then -10000 + mateIn else 10000 - mateIn }
  | _, _ => a1

/-- The pure normalization rule extracted from the resolver's centipawn path. -/
def normalizeEvaluation (raw : Int) (isBlackTurn : Bool) : Int :=
  if isBlackTurn then -raw else raw

/-- Watchdog idle limit: "Abort if no info for 4 seconds". -/
def idleLimitMs : Nat := 4000

/-- Watchdog hard limit: "Absolute ceiling of 30 seconds". -/
def hardLimitMs : Nat := 30000

/-- What one firing-check of the watchdog interval does: whether a `stop`
command was written, whether the pending promise was resolved (and with
what), and whether it was rejected with a timeout failure. -/
structure WatchdogAction where
  stopSent : Bool
  resolvedResult : Option SFAnalysis
  rejectedWithTimeout : Bool
deriving DecidableEq, Repr

/-- One tick of the watchdog interval in `performAnalysis` (lines 321-346):
when `idle > idleLimit || total > hardLimit` the timer is cleared, `stop` is
sent, and — only when the accumulator has a truthy best move and a defined
evaluation — the resolver is called with the converted accumulator.  The
source contains no rejection call on this path; `rejectedWithTimeout` exists
so the absence of a timeout failure is expressible, and is false on every
path of the translated code. -/
def watchdogTick (idle total : Nat) (acc : Accum) : WatchdogAction :=
  if idle > idleLimitMs ∨ total > hardLimitMs then
    { stopSent := true
    , resolvedResult :=
        if truthyStr acc.bestMove ∧ acc.evaluation ≠ none then some (convertAnalysis acc)
        else none
    , rejectedWithTimeout := false }
  else
    { stopSent := false, resolvedResult := none, rejectedWithTimeout := false }

/-! ### Analysis serializer queue (`processQueue`, lines 233-268)

`analyze` pushes a task and calls `processQueue`; `processQueue` returns at
once if `isAnalyzing` is set or the queue is empty, otherwise shifts the
front task, sets `isAnalyzing`, awaits it, and in a `finally` clears
`isAnalyzing` and recurses.  Tasks are numbered by submission.  The state
below tracks the buffered queue, the at-most-one in-flight task, the
completed tasks in completion order, and the next submission number;
an event is either a new `analyze` call or the current task settling
(successfully or with an error — the `finally`/`catch` treats both alike). -/

inductive QEvent where
  | enqueue
  | complete (success : Bool)
deriving DecidableEq, Repr

structure QState where
  queue : List Nat
  current : Option Nat
  done : List Nat
  nextId : Nat
deriving DecidableEq, Repr

def QState.init : QState := ⟨[], none, [], 0⟩

/-- The drain step of `processQueue`: if nothing is in flight and the queue
is nonempty, shift the front task and mark it in flight. -/
def startNext (s : QState) : QState :=
  match s.current, s.queue with
  | none, t :: rest => { s with current := some t, queue := rest }
  | _, _ => s

def qstep (s : QState) : QEvent → Option QState
  | .enqueue =>
      some (startNext { s with queue := s.queue ++ [s.nextId], nextId := s.nextId + 1 })
  | .complete _ =>
      match s.current with
      | some t => some (startNext { s with current := none, done := s.done ++ [t] })
      | none => none

def qrun (s : QState) : List QEvent → Option QState
  | [] => some s
  | e :: es =>
      match qstep s e with
      | some s2 => qrun s2 es
      | none => none

/-- The order invariant: completed ids, then the in-flight id, then the
buffered ids, spell out 0, 1, ..., nextId-1 in submission order. -/
def qinv (s : QState) : Prop :=
  s.done ++ s.current.toList ++ s.queue = List.range s.nextId

/-! ### Instance pool (static members, lines 37-52 and 69-79) -/

def MAX_INSTANCES : Nat := 1

/-- `canCreateInstance()` = `activeInstances < MAX_INSTANCES`. -/
def canCreateInstance (activeInstances : Nat) : Bool :=
  activeInstances < MAX_INSTANCES

inductive PoolEvent where
  | spawnAttempt (spawnOk : Bool)
  | release
deriving DecidableEq, Repr

/-- Admission control at the head of `initialize()`: at the ceiling it throws
without touching the count; below the ceiling the worker is spawned and the
count incremented; when the spawn or handshake fails the catch block
terminates the worker and decrements again, leaving the count unchanged. -/
def initStep (activeInstances : Nat) (spawnOk : Bool) : Except String Nat :=
  if MAX_INSTANCES ≤ activeInstances then
    .error "Maximum Stockfish instances already active"
  else if spawnOk then
    .ok (activeInstances + 1)
  else
    .error "Failed to create Stockfish worker"

/-- Net effect of one pool event on the process-wide count. -/
def poolStep (activeInstances : Nat) : PoolEvent → Nat
  | .spawnAttempt ok =>
      match initStep activeInstances ok with
      | .ok a => a
      | .error _ => activeInstances
  | .release => activeInstances - 1

/-! ### Teardown (`destroy()`, lines 549-585)

`destroy()` clears the queue and the watchdog timer and drops the pending
resolvers; then, if a worker handle is present, it sends stop/quit and
schedules a 100ms timeout whose callback — if the worker is then still
present — terminates it, clears the handle and decrements
`activeInstances`; with no worker but `isReady` still set it decrements
directly; finally it clears `isReady`. -/

structure DestroyState where
  worker : Bool
  isReady : Bool
  pendingTimers : Nat
  activeInstances : Int
deriving DecidableEq, Repr

inductive DestroyEvent where
  | call
  | timerFire
deriving DecidableEq, Repr

/-- One event of the teardown protocol: a `destroy()` call, or a previously
scheduled teardown timeout firing (only valid while one is pending). -/
def destroyStep (s : DestroyState) : DestroyEvent → Option DestroyState
  | .call =>
      let s1 :=
        if s.worker then { s with pendingTimers := s.pendingTimers + 1 }
        else if s.isReady then { s with activeInstances := s.activeInstances - 1 }
        else s
      some { s1 with isReady := false }
  | .timerFire =>
      match s.pendingTimers with
      | 0 => none
      | p + 1 =>
          let s1 := { s with pendingTimers := p }
          some (if s1.worker then
              { s1 with worker := false, activeInstances := s1.activeInstances - 1 }
            else s1)

def destroyRun (s : DestroyState) : List DestroyEvent → Option DestroyState
  | [] => some s
  | e :: es =>
      match destroyStep s e with
      | some s2 => destroyRun s2 es
      | none => none

/-- After the first destroy() call: isReady is cleared, and either the
worker handle is still present with at least one scheduled teardown timeout
and an undecremented count, or the worker is gone and the count has been
decremented exactly once. -/
def destroyInv (c : Int) (s : DestroyState) : Prop :=
  s.isReady = false ∧
  ((s.worker = true ∧ 1 ≤ s.pendingTimers ∧ s.activeInstances = c) ∨
   (s.worker = false ∧ s.activeInstances = c - 1))

end StockfishService

namespace Orchestrator

/-! ### Game-analysis orchestrator (`handleStockfishAnalyzeGame`, IPC main)

The handler walks the game's moves on a running board, analyzes every
position with the native service at depth 20, and, for each ply whose
previous position already has an analysis with a best move, replays a fresh
board over moves 0..i-1, applies the engine's best move there, analyzes
the resulting position at depth 15 and classifies the played move with
(previous evaluation, current evaluation, best-move evaluation).

Board handling (chess.js) is an external collaborator: it enters the
embedding as an environment of oracles — a move application that returns
the new position or fails on an illegal move, and the engine's analyze
call, which either returns a result or fails (a thrown error). -/

/-- A `{from, to, promotion}` move object. -/
structure MoveSpec where
  fromSq : String
  toSq : String
  promotion : Option String
deriving DecidableEq, Repr

/-- `StockfishAnalysis` as returned by the native service, including the
optional quality tag the orchestrator adds. -/
structure NativeAnalysis where
  evaluation : Int
  bestMove : String
  depth : Nat
  mate : Option Int
  quality : Option MoveQuality
deriving DecidableEq, Repr

/-- UCI slicing used to replay the engine's best move:
`slice(0,2)`, `slice(2,4)`, `slice(4,5)` with `promotion || undefined`. -/
def uciToMove (uci : String) : MoveSpec :=
  let p := (uci.drop 4).take 1
  { fromSq := uci.take 2
  , toSq := (uci.drop 2).take 2
  , promotion := if p.isEmpty then none else some p }

/-- External collaborators: legal-move application on a FEN, and the native
engine's analyze call. -/
structure OrchestratorEnv where
  applyMove : String → MoveSpec → Option String
  analyze : String → Nat → Option NativeAnalysis

/-- Main analysis depth used for every position of the game. -/
def GAME_DEPTH : Nat := 20

/-- Reduced depth used for the best-move lookahead during classification. -/
def CLASSIFY_DEPTH : Nat := 15

/-- The temporary board: a fresh chess.js instance replayed over moves
0..i-1 (a move that fails to apply leaves the board unchanged, exactly as in
the main loop, whose `continue` skips it). -/
def replayTo (env : OrchestratorEnv) (startFen : String) (moves : List MoveSpec) (i : Nat) :
    String :=
  (moves.take i).foldl (fun f m => (env.applyMove f m).getD f) startFen

/-- Lines 959-1011: replay the previous position's best move on the
temporary board and analyze it at the reduced depth; on success tag the
current ply's analysis with the classification of (evaluationBefore =
previous ply's evaluation, evaluationAfter = current ply's evaluation,
evaluationBest = lookahead evaluation); when the best move cannot be
replayed, or the lookahead analysis fails, the analysis is left untagged. -/
def classifyStep (env : OrchestratorEnv) (tempFen : String)
    (prev cur : NativeAnalysis) : NativeAnalysis :=
  match env.applyMove tempFen (uciToMove prev.bestMove) with
  | none => cur
  | some fenBest =>
      match env.analyze fenBest CLASSIFY_DEPTH with
      | none => cur
      | some bestA =>
          { cur with
            quality := some (MoveClassifier.classifyMove prev.evaluation
              cur.evaluation bestA.evaluation) }

/-- `results[String(i)]` on the record built so far. -/
def lookupResult (results : List (Nat × NativeAnalysis)) (i : Nat) : Option NativeAnalysis :=
  (results.find? (fun p => p.1 == i)).map (fun p => p.2)

/-- The per-move loop of `handleStockfishAnalyzeGame`: apply the played move
(skipping the ply when it fails to validate), analyze the new position at
depth 20 (skipping the ply when the engine call fails), classify against the
previous ply's analysis when one with a best move exists, and record the
result under key i+1. -/
def gameLoop (env : OrchestratorEnv) (startFen : String) (allMoves : List MoveSpec) :
    List MoveSpec → Nat → String → List (Nat × NativeAnalysis) → List (Nat × NativeAnalysis)
  | [], _, _, results => results
  | m :: rest, i, fen, results =>
      match env.applyMove fen m with
      | none => gameLoop env startFen allMoves rest (i + 1) fen results
      | some fen2 =>
          match env.analyze fen2 GAME_DEPTH with
          | none => gameLoop env startFen allMoves rest (i + 1) fen2 results
          | some cur =>
              let cur2 :=
                match lookupResult results i with
                | some prev =>
                    if prev.bestMove.isEmpty then cur
                    else classifyStep env (replayTo env startFen allMoves i) prev cur
                | none => cur
              gameLoop env startFen allMoves rest (i + 1) fen2 (results ++ [(i + 1, cur2)])

/-- The whole handler: analyze the starting position at depth 20 (key 0,
skipped on failure), then run the per-move loop from the start position. -/
def analyzeGame (env : OrchestratorEnv) (startFen : String) (moves : List MoveSpec) :
    List (Nat × NativeAnalysis) :=
  let initResults :=
    match env.analyze startFen GAME_DEPTH with
    | some a => [(0, a)]
    | none => []
  gameLoop env startFen moves moves 0 startFen initResults

end Orchestrator

end HoloCoach

namespace HoloCoach

open MoveClassifier

/-- Shared helper: in the sign-flip case classifyMove returns Inaccuracy. -/
lemma classifyMove_of_flip (b a bb : Int)
    (h : Int.sign b ≠ Int.sign (clampCap a) ∧ |clampCap a - b| < 250) :
    classifyMove b a bb = .inaccuracy := by
  simp only [classifyMove, BEST_LOSS_THRESHOLD, OKAY_LOSS_THRESHOLD,
    INACCURACY_LOSS_THRESHOLD, TINY_SIGN_FLIP_THRESHOLD]
  rw [if_pos h]

/-- Shared helper: outside the sign-flip case classifyMove is determined by
the loss with thresholds 50/120/250. -/
lemma classifyMove_of_no_flip (b a bb : Int)
    (h : ¬(Int.sign b ≠ Int.sign (clampCap a) ∧ |clampCap a - b| < 250)) :
    (classifyMove b a bb = .best ↔ |clampCap bb - clampCap a| ≤ 50) ∧
    (classifyMove b a bb = .okay ↔
      50 < |clampCap bb - clampCap a| ∧ |clampCap bb - clampCap a| ≤ 120) ∧
    (classifyMove b a bb = .inaccuracy ↔
      120 < |clampCap bb - clampCap a| ∧ |clampCap bb - clampCap a| ≤ 250) ∧
    (classifyMove b a bb = .blunder ↔ 250 < |clampCap bb - clampCap a|) := by
  simp only [classifyMove, BEST_LOSS_THRESHOLD, OKAY_LOSS_THRESHOLD,
    INACCURACY_LOSS_THRESHOLD, TINY_SIGN_FLIP_THRESHOLD]
  rw [if_neg h]
  split_ifs with h1 h2 h3 <;>
    refine ⟨?_, ?_, ?_, ?_⟩ <;> simp_all <;> omega

/-- C1: classifyMove clamps evalAfter/evalBest to [-1000,1000]; on a sign flip
with |clamped evalAfter - evalBefore| < 250 it returns Inaccuracy regardless of
loss; otherwise it classifies by loss = |evalBest - evalAfter| (clamped) with
boundaries 50/120/250; the five boundary examples evaluate as stated. -/
theorem classifyMove_matches_spec :
    (∀ b a bb : Int,
      (Int.sign b ≠ Int.sign (clampCap a) ∧ |clampCap a - b| < 250 →
        classifyMove b a bb = .inaccuracy) ∧
      (¬(Int.sign b ≠ Int.sign (clampCap a) ∧ |clampCap a - b| < 250) →
        (classifyMove b a bb = .best ↔ |clampCap bb - clampCap a| ≤ 50) ∧
        (classifyMove b a bb = .okay ↔
          50 < |clampCap bb - clampCap a| ∧ |clampCap bb - clampCap a| ≤ 120) ∧
        (classifyMove b a bb = .inaccuracy ↔
          120 < |clampCap bb - clampCap a| ∧ |clampCap bb - clampCap a| ≤ 250) ∧
        (classifyMove b a bb = .blunder ↔ 250 < |clampCap bb - clampCap a|))) ∧
    classifyMove 0 0 50 = .best ∧
    classifyMove 0 0 51 = .okay ∧
    classifyMove 0 0 121 = .inaccuracy ∧
    classifyMove 0 0 251 = .blunder ∧
    classifyMove 100 (-50) (-45) = .inaccuracy :=
  ⟨fun b a bb => ⟨classifyMove_of_flip b a bb, classifyMove_of_no_flip b a bb⟩,
    by decide, by decide, by decide, by decide, by decide⟩

/-- Witness for C1: instantiate the universal part at (0, 0, 51), where no
sign flip occurs and the loss is 51, and discharge the hypothesis. -/
theorem classifyMove_matches_spec_witness :
    classifyMove 0 0 51 = .okay ↔
      (50 : Int) < |clampCap 51 - clampCap 0| ∧ |clampCap 51 - clampCap 0| ≤ 120 :=
  (((classifyMove_matches_spec.1 0 0 51).2 (by decide)).2).1

/-- C10: with evalBefore = 0 and any nonzero evalAfter of magnitude < 250,
classifyMove reports Inaccuracy no matter what evalBest is (Math.sign 0 = 0
differs from the sign of any nonzero value, so the sign-flip branch fires);
in particular classifyMove 0 10 10 = Inaccuracy despite a loss of 0. -/
theorem classifyMove_zero_signflip :
    (∀ a best : Int, a ≠ 0 → |a| < 250 → classifyMove 0 a best = .inaccuracy) ∧
    classifyMove 0 10 10 = .inaccuracy := by
  refine ⟨fun a best ha hlt => ?_, by decide⟩
  have hclamp : clampCap a = a := by
    have h2 := abs_lt.mp hlt
    simp only [clampCap, MATE_CAP]
    omega
  have hsign : Int.sign (0 : Int) ≠ Int.sign (clampCap a) := by
    rw [hclamp, Int.sign_zero]
    intro h
    exact ha (Int.sign_eq_zero_iff_zero.mp h.symm)
  refine classifyMove_of_flip 0 a best ⟨hsign, ?_⟩
  rw [hclamp]
  simpa using hlt

/-- Witness for C10 at (10, 10). -/
theorem classifyMove_zero_signflip_witness :
    classifyMove 0 10 10 = .inaccuracy :=
  classifyMove_zero_signflip.1 10 10 (by decide) (by decide)

open StockfishService

/-- C2 counterexample: the engine's mate-score conversion is
`mateIn > 0 ? 10000 - mateIn : -10000 - |mateIn|`, not
`sign(N) * (10000 - 100*|N|)`: at N = 1 it records 9999 where the claim says
9900, and at N = -1 it records -10001, whose magnitude exceeds 10000. -/
theorem parseInfoMateEval_refutes_spec_formula :
    parseInfoMateEval 1 = 9999 ∧
    Int.sign 1 * (10000 - 100 * |(1 : Int)|) = 9900 ∧
    parseInfoMateEval 1 ≠ Int.sign 1 * (10000 - 100 * |(1 : Int)|) ∧
    parseInfoMateEval (-1) = -10001 ∧
    10000 < |parseInfoMateEval (-1)| := by
  refine ⟨by decide, by decide, by decide, by decide, by decide⟩

/-- C2 amended: the evaluation recorded for "mate in N" equals `10000 - N`
for N > 0 and `-10000 - |N|` for N ≤ 0; over positive mate distances
1..20 the magnitudes are strictly decreasing and stay below 10000; for
negative N the magnitude is 10000 + |N|, exceeding 10000.
`MoveClassifier.mateScore` (used only in accuracy aggregation) instead maps
N to `10000 - 100*|N|`, ignoring the sign of N. -/
theorem parseInfoMateEval_code_behavior :
    (∀ n : Int, 0 < n → parseInfoMateEval n = 10000 - n) ∧
    (∀ n : Int, n ≤ 0 → parseInfoMateEval n = -10000 - |n|) ∧
    (∀ n : Int, 1 ≤ n → n < 20 →
      |parseInfoMateEval (n + 1)| < |parseInfoMateEval n|) ∧
    (∀ n : Int, 0 < n → n < 20000 → |parseInfoMateEval n| < 10000) ∧
    (∀ n : Int, n < 0 → |parseInfoMateEval n| = 10000 + |n|) ∧
    (∀ n : Int, mateScore n = mateScore (-n)) := by
  have hpos : ∀ n : Int, 0 < n → parseInfoMateEval n = 10000 - n := by
    intro n hn
    simp [parseInfoMateEval, hn]
  refine ⟨hpos, ?_, ?_, ?_, ?_, ?_⟩
  · intro n hn
    simp [parseInfoMateEval, not_lt.mpr hn]
  · intro n h1 h2
    rw [hpos n (by omega), hpos (n + 1) (by omega),
      abs_of_nonneg (by omega), abs_of_nonneg (by omega)]
    omega
  · intro n h1 h2
    rw [hpos n h1]
    rw [abs_lt]
    omega
  · intro n hn
    have h1 : parseInfoMateEval n = -10000 - |n| := by
      simp [parseInfoMateEval, not_lt.mpr (le_of_lt hn)]
    have h2 : |n| = -n := abs_of_neg hn
    rw [h1, h2, abs_of_nonpos (by omega)]
    omega
  · intro n
    simp [mateScore, abs_neg]

/-- Witness for C2 amended, at N = 2 and the monotonicity step 2 → 3. -/
theorem parseInfoMateEval_code_behavior_witness :
    parseInfoMateEval 2 = 10000 - 2 ∧
    |parseInfoMateEval (2 + 1)| < |parseInfoMateEval 2| :=
  ⟨parseInfoMateEval_code_behavior.1 2 (by decide),
    parseInfoMateEval_code_behavior.2.2.1 2 (by decide) (by decide)⟩

/-- C3 counterexample: a fired watchdog tick (idle 5000ms > 4000ms limit)
with an empty accumulator sends `stop` but neither resolves nor rejects the
pending analyze call — no AnalysisTimeout failure is delivered, contradicting
the claim that the caller receives a timeout failure. -/
theorem watchdogTick_empty_accum_no_reject :
    watchdogTick 5000 6000 Accum.empty =
      { stopSent := true, resolvedResult := none, rejectedWithTimeout := false } := by
  decide

/-- C3 amended: when the watchdog fires (idle past the idle limit or elapsed
time past the hard limit) a stop command is sent; if the accumulator has a
truthy best move and a defined evaluation the pending analyze call is
resolved immediately with that partial result; otherwise (in particular on an
empty accumulator) nothing is resolved and nothing is rejected — the pending
call is left to a later `bestmove` line, and no AnalysisTimeout failure ever
originates from this watchdog. -/
theorem watchdogTick_fire_behavior :
    (∀ idle total acc, idle > idleLimitMs ∨ total > hardLimitMs →
      (watchdogTick idle total acc).stopSent = true ∧
      (watchdogTick idle total acc).resolvedResult =
        (if truthyStr acc.bestMove ∧ acc.evaluation ≠ none then some (convertAnalysis acc)
         else none) ∧
      (watchdogTick idle total acc).rejectedWithTimeout = false) ∧
    (watchdogTick 5000 5000 ⟨some 30, some "e2e4", some 5, none⟩).resolvedResult =
      some ⟨30, "e2e4", 5, none⟩ := by
  constructor
  · intro idle total acc h
    rw [watchdogTick, if_pos h]
    exact ⟨rfl, rfl, rfl⟩
  · decide

/-- Witness for C3 amended: the salvage scenario (one info line with depth 5,
eval 30, best move e2e4, then silence past the idle limit). -/
theorem watchdogTick_fire_behavior_witness :
    (watchdogTick 4500 100 ⟨some 30, some "e2e4", some 5, none⟩).stopSent = true ∧
    (watchdogTick 4500 100 ⟨some 30, some "e2e4", some 5, none⟩).resolvedResult =
      (if truthyStr (some "e2e4") ∧ (some (30 : Int)) ≠ none
       then some (convertAnalysis ⟨some 30, some "e2e4", some 5, none⟩) else none) ∧
    (watchdogTick 4500 100 ⟨some 30, some "e2e4", some 5, none⟩).rejectedWithTimeout = false :=
  watchdogTick_fire_behavior.1 4500 100 ⟨some 30, some "e2e4", some 5, none⟩ (by decide)

/-- C4: the evaluation returned by analyze is negated exactly when the
analyzed position's side to move is black, so for every raw
side-to-move-relative centipawn score the normalization is antisymmetric in
the side to move, and the resolver installed by performAnalysis implements
exactly this rule on mate-free results. -/
theorem normalizeEvaluation_symmetry :
    (∀ S : Int, ∀ b : Bool,
      normalizeEvaluation S b = -normalizeEvaluation S (!b)) ∧
    (∀ S : Int, normalizeEvaluation S true = -S ∧ normalizeEvaluation S false = S) ∧
    (∀ S : Int, ∀ b : Bool, ∀ bm : String, ∀ d : Nat,
      (resolverNormalize b ⟨S, bm, d, none⟩).evaluation = normalizeEvaluation S b) := by
  refine ⟨fun S b => ?_, fun S => ⟨rfl, rfl⟩, fun S b bm d => ?_⟩
  · cases b <;> simp [normalizeEvaluation]
  · cases b <;> rfl

/-- C5: a terminal bestmove line with an accumulator in which no info line
ever set an evaluation or a depth still resolves successfully, with
evaluation 0 and depth 1; concretely, "bestmove e2e4" on the empty
accumulator yields { evaluation 0, bestMove "e2e4", depth 1, no mate }. -/
theorem finalizeBestmove_defaults :
    (∀ parts : List String, ∀ acc : Accum, acc.evaluation = none → acc.depth = none →
      (finalizeBestmove parts acc).evaluation = 0 ∧
      (finalizeBestmove parts acc).depth = 1) ∧
    handleBestmoveLine "bestmove e2e4" Accum.empty =
      { evaluation := 0, bestMove := "e2e4", depth := 1, mate := none } := by
  constructor
  · intro parts acc he hd
    unfold finalizeBestmove
    cases hp : parts.get? 1 with
    | none => simp [hp, he, hd, convertAnalysis]
    | some bm =>
      simp only [hp]
      split_ifs <;> simp [he, hd, convertAnalysis]
  · rfl

/-- Witness for C5: the empty accumulator with the split bestmove line. -/
theorem finalizeBestmove_defaults_witness :
    (finalizeBestmove ["bestmove", "e2e4"] Accum.empty).evaluation = 0 ∧
    (finalizeBestmove ["bestmove", "e2e4"] Accum.empty).depth = 1 :=
  finalizeBestmove_defaults.1 ["bestmove", "e2e4"] Accum.empty rfl rfl

/-! Queue lemmas shared by the FIFO theorem. -/

lemma qinv_startNext {s : QState} (h : qinv s) : qinv (startNext s) := by
  unfold qinv startNext at *
  cases hc : s.current with
  | some t => simpa [hc] using (by simpa [hc] using h)
  | none =>
    cases hq : s.queue with
    | nil => simpa [hc, hq] using (by simpa [hc, hq] using h)
    | cons t rest =>
      simp only [hc, hq] at h ⊢
      simpa using h

lemma qinv_step {s s' : QState} {e : QEvent} (h : qinv s)
    (hs : qstep s e = some s') : qinv s' := by
  cases e with
  | enqueue =>
    simp only [qstep, Option.some_inj] at hs
    subst hs
    apply qinv_startNext
    unfold qinv at h ⊢
    simp only [List.range_succ, ← h]
    simp
  | complete b =>
    simp only [qstep] at hs
    cases hc : s.current with
    | none => simp [hc] at hs
    | some t =>
      simp only [hc, Option.some_inj] at hs
      subst hs
      apply qinv_startNext
      unfold qinv at h ⊢
      simp only [hc, Option.toList] at h ⊢
      simp only [← h]
      simp

lemma qinv_run {s s' : QState} {es : List QEvent} (h : qinv s)
    (hs : qrun s es = some s') : qinv s' := by
  induction es generalizing s with
  | nil => simp only [qrun, Option.some_inj] at hs; subst hs; exact h
  | cons e es ih =>
    simp only [qrun] at hs
    cases hstep : qstep s e with
    | none => simp [hstep] at hs
    | some s2 =>
      simp only [hstep] at hs
      exact ih (qinv_step h hstep) hs

lemma done_eq_range {s : QState} (h : qinv s) :
    s.done = List.range s.done.length := by
  unfold qinv at h
  have hlen : s.done.length ≤ s.nextId := by
    have := congrArg List.length h
    simp [List.length_append] at this
    omega
  have htake : s.done = (List.range s.nextId).take s.done.length := by
    rw [← h]
    simp [List.take_append]
  nth_rewrite 1 [htake]
  rw [List.take_range, min_eq_left hlen]

/-- C6: concurrent analyze calls are serialized: the drain runs at most one
task at a time (the state holds at most one in-flight task and every
submitted task is exactly once in done/in-flight/buffered), completions
occur in submission order, and an error inside a queued unit produces the
same drain transition as a success — the queue always proceeds. -/
theorem processQueue_fifo :
    (∀ es : List QEvent, ∀ s' : QState, qrun QState.init es = some s' →
      s'.done = List.range s'.done.length ∧
      s'.done.length + s'.current.toList.length + s'.queue.length = s'.nextId) ∧
    (∀ s : QState, ∀ b : Bool, qstep s (.complete b) = qstep s (.complete true)) := by
  constructor
  · intro es s' hrun
    have hinit : qinv QState.init := by
      unfold qinv QState.init
      simp
    have hinv := qinv_run hinit hrun
    refine ⟨done_eq_range hinv, ?_⟩
    have := congrArg List.length hinv
    simp only [qinv, List.length_append, List.length_range] at this
    omega
  · intro s b
    rfl

/-- Witness for C6: three analyze calls, completed (the first with an error)
in submission order. -/
theorem processQueue_fifo_witness :
    ∃ s' : QState,
      qrun QState.init
        [.enqueue, .enqueue, .enqueue, .complete false, .complete true, .complete true] =
        some s' ∧
      s'.done = List.range s'.done.length := by
  refine ⟨⟨[], none, [0, 1, 2], 3⟩, by decide, ?_⟩
  exact (processQueue_fifo.1
    [.enqueue, .enqueue, .enqueue, .complete false, .complete true, .complete true]
    ⟨[], none, [0, 1, 2], 3⟩ (by decide)).1

/-! Pool lemmas shared by the ceiling theorem. -/

lemma poolStep_le {a : Nat} (h : a ≤ MAX_INSTANCES) (e : PoolEvent) :
    poolStep a e ≤ MAX_INSTANCES := by
  cases e with
  | spawnAttempt ok =>
    simp only [poolStep, initStep]
    split_ifs <;> simp <;> omega
  | release =>
    simp only [poolStep]
    omega

lemma poolFoldl_le {a : Nat} (es : List PoolEvent) (h : a ≤ MAX_INSTANCES) :
    es.foldl poolStep a ≤ MAX_INSTANCES := by
  induction es generalizing a with
  | nil => simpa using h
  | cons e es ih => exact ih (poolStep_le h e)

/-- C7: the live-instance count never exceeds MAX_INSTANCES over any event
sequence started at 0; an initialize() attempt at the ceiling fails with an
error and leaves the count unchanged; canCreateInstance is false exactly at
or above the ceiling, and becomes true again after a release from the
ceiling. -/
theorem pool_ceiling :
    (∀ a : Nat, ∀ ok : Bool, MAX_INSTANCES ≤ a →
      initStep a ok = .error "Maximum Stockfish instances already active" ∧
      poolStep a (.spawnAttempt ok) = a) ∧
    (∀ a : Nat, canCreateInstance a = false ↔ MAX_INSTANCES ≤ a) ∧
    (∀ es : List PoolEvent, es.foldl poolStep 0 ≤ MAX_INSTANCES) ∧
    (canCreateInstance MAX_INSTANCES = false ∧
      canCreateInstance (poolStep MAX_INSTANCES .release) = true) := by
  refine ⟨?_, ?_, ?_, by decide, by decide⟩
  · intro a ok h
    have h1 : initStep a ok = .error "Maximum Stockfish instances already active" := by
      simp [initStep, h]
    exact ⟨h1, by simp [poolStep, h1]⟩
  · intro a
    simp [canCreateInstance]
  · intro es
    exact poolFoldl_le es (by simp)

/-- Witness for C7 at the ceiling (count 1 with MAX_INSTANCES = 1). -/
theorem pool_ceiling_witness :
    initStep 1 true = .error "Maximum Stockfish instances already active" ∧
    poolStep 1 (.spawnAttempt true) = 1 :=
  pool_ceiling.1 1 true (by decide)

/-! Teardown lemmas shared by the idempotency theorem. -/

lemma destroyInv_step {c : Int} {s s' : DestroyState} {e : DestroyEvent}
    (h : destroyInv c s) (hs : destroyStep s e = some s') : destroyInv c s' := by
  obtain ⟨hr, hcase⟩ := h
  cases e with
  | call =>
    simp only [destroyStep, Option.some_inj] at hs
    subst hs
    rcases hcase with ⟨hw, hp, ha⟩ | ⟨hw, ha⟩
    · exact ⟨rfl, Or.inl (by simp [hw, hp, ha])⟩
    · exact ⟨rfl, Or.inr (by simp [hw, hr, ha])⟩
  | timerFire =>
    simp only [destroyStep] at hs
    cases hp : s.pendingTimers with
    | zero => simp [hp] at hs
    | succ p =>
      simp only [hp, Option.some_inj] at hs
      subst hs
      rcases hcase with ⟨hw, _, ha⟩ | ⟨hw, ha⟩
      · exact ⟨by simp [hw, hr], Or.inr (by simp [hw, ha])⟩
      · exact ⟨by simp [hw, hr], Or.inr (by simp [hw, ha])⟩

lemma destroyInv_run {c : Int} {s s' : DestroyState} {es : List DestroyEvent}
    (h : destroyInv c s) (hs : destroyRun s es = some s') : destroyInv c s' := by
  induction es generalizing s with
  | nil => simp only [destroyRun, Option.some_inj] at hs; subst hs; exact h
  | cons e es ih =>
    simp only [destroyRun] at hs
    cases hstep : destroyStep s e with
    | none => simp [hstep] at hs
    | some s2 =>
      simp only [hstep] at hs
      exact ih (destroyInv_step h hstep) hs

/-- C8: from an initialized session (worker present, isReady, count c),
destroy() never fails from any state (always safe to call); any nonempty
sequence of destroy() calls and teardown-timeout firings keeps the count at
c or c - 1, and once no teardown timeout is left pending the count has been
decremented exactly once, to c - 1. -/
theorem destroy_decrements_once :
    (∀ s : DestroyState, destroyStep s .call ≠ none) ∧
    (∀ c : Int, ∀ es : List DestroyEvent, ∀ s' : DestroyState,
      destroyRun ⟨true, true, 0, c⟩ es = some s' →
      (s'.activeInstances = c ∨ s'.activeInstances = c - 1) ∧
      (es ≠ [] → s'.pendingTimers = 0 →
        s'.activeInstances = c - 1 ∧ s'.worker = false)) := by
  constructor
  · intro s
    simp [destroyStep]
  · intro c es s' hrun
    cases es with
    | nil =>
      simp only [destroyRun, Option.some_inj] at hrun
      subst hrun
      exact ⟨Or.inl rfl, by simp⟩
    | cons e es =>
      have hfirst : e = .call := by
        cases e with
        | call => rfl
        | timerFire => simp [destroyRun, destroyStep] at hrun
      subst hfirst
      simp only [destroyRun, destroyStep] at hrun
      have hinv1 : destroyInv c ⟨true, false, 1, c⟩ := ⟨rfl, Or.inl ⟨rfl, le_refl 1, rfl⟩⟩
      have hinv : destroyInv c s' := destroyInv_run hinv1 (by simpa using hrun)
      obtain ⟨_, hcase⟩ := hinv
      constructor
      · rcases hcase with ⟨_, _, ha⟩ | ⟨_, ha⟩
        · exact Or.inl ha
        · exact Or.inr ha
      · intro _ hp
        rcases hcase with ⟨_, hge, ha⟩ | ⟨hw, ha⟩
        · omega
        · exact ⟨ha, hw⟩

/-- Witness for C8: two destroy() calls, both scheduled timeouts firing, and
a late third destroy() call; the count ends at 5 - 1 = 4. -/
theorem destroy_decrements_once_witness :
    ∃ s' : DestroyState,
      destroyRun ⟨true, true, 0, 5⟩ [.call, .call, .timerFire, .timerFire, .call] = some s' ∧
      s'.activeInstances = 5 - 1 ∧ s'.worker = false := by
  refine ⟨⟨false, false, 0, 4⟩, by decide, ?_⟩
  exact (destroy_decrements_once.2 5 [.call, .call, .timerFire, .timerFire, .call]
    ⟨false, false, 0, 4⟩ (by decide)).2 (by decide) rfl

open Orchestrator

/-- C9: when ply i's analysis exists and has a best move, the orchestrator
replays a board over moves 0..i-1 (`replayTo`), applies the engine's best
move there, analyzes the result at the reduced depth 15 (< 20, the main
depth used by `gameLoop`), and classifies with (before = ply i's evaluation,
after = ply i+1's evaluation, best = the lookahead evaluation); when the
best move cannot be replayed the ply is recorded unclassified and the loop
continues with the remaining moves. -/
theorem orchestrator_two_stage_lookahead :
    (∀ env : OrchestratorEnv, ∀ tempFen : String, ∀ prev cur : NativeAnalysis,
      ∀ fenBest : String, ∀ bestA : NativeAnalysis,
      env.applyMove tempFen (uciToMove prev.bestMove) = some fenBest →
      env.analyze fenBest CLASSIFY_DEPTH = some bestA →
      classifyStep env tempFen prev cur =
        { cur with quality := some (MoveClassifier.classifyMove
            prev.evaluation cur.evaluation bestA.evaluation) }) ∧
    (∀ env : OrchestratorEnv, ∀ tempFen : String, ∀ prev cur : NativeAnalysis,
      env.applyMove tempFen (uciToMove prev.bestMove) = none →
      classifyStep env tempFen prev cur = cur) ∧
    CLASSIFY_DEPTH < GAME_DEPTH ∧
    (∀ env : OrchestratorEnv, ∀ startFen : String, ∀ allMoves : List MoveSpec,
      ∀ m : MoveSpec, ∀ rest : List MoveSpec, ∀ i : Nat, ∀ fen fen2 : String,
      ∀ results : List (Nat × NativeAnalysis), ∀ cur prev : NativeAnalysis,
      env.applyMove fen m = some fen2 →
      env.analyze fen2 GAME_DEPTH = some cur →
      lookupResult results i = some prev →
      ¬prev.bestMove.isEmpty →
      gameLoop env startFen allMoves (m :: rest) i fen results =
        gameLoop env startFen allMoves rest (i + 1) fen2
          (results ++ [(i + 1, classifyStep env (replayTo env startFen allMoves i) prev cur)])) ∧
    (∀ env : OrchestratorEnv, ∀ startFen : String, ∀ allMoves : List MoveSpec,
      ∀ m : MoveSpec, ∀ rest : List MoveSpec, ∀ i : Nat, ∀ fen fen2 : String,
      ∀ results : List (Nat × NativeAnalysis), ∀ cur prev : NativeAnalysis,
      env.applyMove fen m = some fen2 →
      env.analyze fen2 GAME_DEPTH = some cur →
      lookupResult results i = some prev →
      ¬prev.bestMove.isEmpty →
      env.applyMove (replayTo env startFen allMoves i) (uciToMove prev.bestMove) = none →
      gameLoop env startFen allMoves (m :: rest) i fen results =
        gameLoop env startFen allMoves rest (i + 1) fen2 (results ++ [(i + 1, cur)])) := by
  have h1 : ∀ env : OrchestratorEnv, ∀ tempFen : String, ∀ prev cur : NativeAnalysis,
      ∀ fenBest : String, ∀ bestA : NativeAnalysis,
      env.applyMove tempFen (uciToMove prev.bestMove) = some fenBest →
      env.analyze fenBest CLASSIFY_DEPTH = some bestA →
      classifyStep env tempFen prev cur =
        { cur with quality := some (MoveClassifier.classifyMove
            prev.evaluation cur.evaluation bestA.evaluation) } := by
    intro env tempFen prev cur fenBest bestA ha hb
    simp [classifyStep, ha, hb]
  have h2 : ∀ env : OrchestratorEnv, ∀ tempFen : String, ∀ prev cur : NativeAnalysis,
      env.applyMove tempFen (uciToMove prev.bestMove) = none →
      classifyStep env tempFen prev cur = cur := by
    intro env tempFen prev cur ha
    simp [classifyStep, ha]
  have h4 : ∀ env : OrchestratorEnv, ∀ startFen : String, ∀ allMoves : List MoveSpec,
      ∀ m : MoveSpec, ∀ rest : List MoveSpec, ∀ i : Nat, ∀ fen fen2 : String,
      ∀ results : List (Nat × NativeAnalysis), ∀ cur prev : NativeAnalysis,
      env.applyMove fen m = some fen2 →
      env.analyze fen2 GAME_DEPTH = some cur →
      lookupResult results i = some prev →
      ¬prev.bestMove.isEmpty →
      gameLoop env startFen allMoves (m :: rest) i fen results =
        gameLoop env startFen allMoves rest (i + 1) fen2
          (results ++ [(i + 1, classifyStep env (replayTo env startFen allMoves i) prev cur)]) := by
    intro env startFen allMoves m rest i fen fen2 results cur prev ha hb hc hd
    simp only [gameLoop, ha, hb, hc]
    simp [hd]
  refine ⟨h1, h2, by decide, h4, ?_⟩
  intro env startFen allMoves m rest i fen fen2 results cur prev ha hb hc hd he
  rw [h4 env startFen allMoves m rest i fen fen2 results cur prev ha hb hc hd,
    h2 env (replayTo env startFen allMoves i) prev cur he]

/-- Witness for C9: a concrete environment in which move application
concatenates and the engine scores a position by its FEN length.  Both the
classification path and the loop-unfold are instantiated. -/
theorem orchestrator_two_stage_lookahead_witness :
    Orchestrator.classifyStep
      ⟨fun f m => some (f ++ "." ++ m.fromSq ++ m.toSq),
        fun f d => some ⟨(f.length : Int), "e2e4", d, none, none⟩⟩
      "t" ⟨10, "e2e4", 20, none, none⟩ ⟨5, "d2d4", 20, none, none⟩ =
      ⟨5, "d2d4", 20, none,
        some (MoveClassifier.classifyMove 10 5 (("t.e2e4".length : Int)))⟩ :=
  orchestrator_two_stage_lookahead.1
    ⟨fun f m => some (f ++ "." ++ m.fromSq ++ m.toSq),
      fun f d => some ⟨(f.length : Int), "e2e4", d, none, none⟩⟩
    "t" ⟨10, "e2e4", 20, none, none⟩ ⟨5, "d2d4", 20, none, none⟩
    "t.e2e4" ⟨6, "e2e4", 15, none, none⟩ rfl rfl

end HoloCoach
